import Mathlib

/-!
Verification of the ingestion pipeline of the 1C documentation search backend.

The development is a shallow embedding of the Python sources:
  * `src/models/index_status.py`   (indexing progress snapshot)
  * `src/models/doc_models.py`     (document data model)
  * `src/parsers/html_parser.py`   (document extractor)
  * `src/parsers/hbk_parser.py`    (archive reader / ingestion orchestrator)
  * `src/core/utils.py`            (validation and temp-dir helpers)

Machine strings are Lean `String`s; Python `bytes` are `List UInt8`; Python
exceptions are modelled with `Except`; filesystem and external-tool behaviour
is abstracted into explicit record parameters.
-/

namespace Help1C

/-! ## String helpers mirroring the Python `str` operations used by the code -/

/-- Python `'\\'.replace` on a path: the source only ever replaces the single
character `\` by `/`, which is a character-wise map. -/
def replaceBackslashes (s : String) : String :=
  String.mk (s.data.map (fun c => if c = '\\' then '/' else c))

/-- Python `str.lower` restricted to the alphabets that actually occur in the
parser's keywords and path segments: ASCII letters and the Cyrillic letters
U+0410..U+042F plus Ё (U+0401). -/
def pyLowerChar (c : Char) : Char :=
  if 'A' ≤ c ∧ c ≤ 'Z' then Char.ofNat (c.toNat + 32)
  else if 0x410 ≤ c.toNat ∧ c.toNat ≤ 0x42F then Char.ofNat (c.toNat + 0x20)
  else if c.toNat = 0x401 then Char.ofNat 0x451
  else c

/-- Python `str.lower` (see `pyLowerChar`). -/
def pyLower (s : String) : String := String.mk (s.data.map pyLowerChar)

/-- Python `needle in hay` substring test. -/
def strContains (hay needle : String) : Bool :=
  hay.data.tails.any (fun t => needle.data.isPrefixOf t)

/-- Python `str.startswith`. -/
def strStartsWith (s pre : String) : Bool := pre.data.isPrefixOf s.data

/-- Python `str.endswith`. -/
def strEndsWith (s suf : String) : Bool := suf.data.isSuffixOf s.data

/-- Python `str.split('/')` (keeps empty fields, `''.split('/') == ['']`). -/
def splitOnSlash (s : String) : List String :=
  (s.data.foldr (fun c acc =>
      if c = '/' then [] :: acc
      else match acc with
        | [] => [[c]]
        | h :: t => (c :: h) :: t) [[]]).map String.mk

/-- Python truthiness of `Optional[str]`: `None` and `''` are falsy. -/
def pyFalsyStr (o : Option String) : Bool :=
  match o with
  | none => true
  | some s => s == ""

/-! ## Data model (`src/models/doc_models.py`) -/

/-- DocumentType enumeration from `doc_models.py`. -/
inductive DocumentType where
  | GLOBAL_FUNCTION
  | GLOBAL_PROCEDURE
  | GLOBAL_EVENT
  | OBJECT_FUNCTION
  | OBJECT_PROCEDURE
  | OBJECT_PROPERTY
  | OBJECT_EVENT
  | OBJECT_CONSTRUCTOR
  | OBJECT
deriving DecidableEq, BEq, Repr

/-- Parameter of a function/method (`doc_models.Parameter`). -/
structure Parameter where
  name : String
  type : String
  description : String := ""
  required : Bool := true
deriving DecidableEq, Repr

/-- Documentation record (`doc_models.Documentation`).  The two syntax-string
fields of the source (Russian/English call syntax) are named `stx_ru`/`stx_en`
here. -/
structure Documentation where
  id : String := ""
  type : DocumentType
  name : String := ""
  object : Option String := none
  stx_ru : String := ""
  stx_en : String := ""
  description : String := ""
  parameters : List Parameter := []
  return_type : Option String := none
  usage : Option String := none
  version_from : Option String := none
  examples : List String := []
  source_file : String := ""
  full_path : String := ""
deriving DecidableEq, Repr

/-- Entry of the .hbk archive (`doc_models.HBKEntry`). -/
structure HBKEntry where
  path : String
  size : Nat := 0
  is_dir : Bool := false
  content : Option (List UInt8) := none
deriving DecidableEq, Repr

instance : Inhabited HBKEntry := ⟨{ path := "" }⟩

/-! ## Path classification (`html_parser.HTMLParser._parse_file_path`) -/

/-- Strips a trailing `.html` from a file name
(`file_name = file_name[:-5]` in `_parse_file_path`). -/
def stripHtmlExt (name : String) : String :=
  if strEndsWith name ".html" then String.mk (name.data.take (name.data.length - 5))
  else name

/-- Index of the first path part whose lower-casing equals the member type
(the search loop of `_extract_object_name`). -/
def findMemberIdx (parts : List String) (memberType : String) : Option Nat :=
  parts.findIdx? (fun part => pyLower part == memberType)

/-- The upward walk of `_extract_object_name`: the loop
`for j in range(member_idx - 1, -1, -1)` returns the first `parts[j]`,
scanning from `member_idx - 1` down to `0`, that neither starts with
`catalog` nor equals `objects`. -/
def catalogWalk (parts : List String) (memberIdx : Nat) : Option String :=
  (parts.take memberIdx).reverse.find?
    (fun p => !(strStartsWith p "catalog") && p != "objects")

/-- HTMLParser._extract_object_name on the already split path parts. -/
def extract_object_name_parts (parts : List String) (memberType : String) : Option String :=
  match findMemberIdx parts memberType with
  | none => none
  | some memberIdx =>
    if memberIdx = 0 then none
    else
      let objectPart := parts.getD (memberIdx - 1) ""
      if objectPart == "Global context" then some "Global context"
      else if strStartsWith objectPart "catalog" then
        match catalogWalk parts memberIdx with
        | some found => some found
        | none => some objectPart
      else some objectPart

/-- HTMLParser._extract_object_name. -/
def extract_object_name (pathStr : String) (memberType : String) : Option String :=
  extract_object_name_parts (splitOnSlash pathStr) memberType

/-- HTMLParser._extract_main_object_name on the already split path parts. -/
def extract_main_object_name_parts (parts : List String) : Option String :=
  match parts.findIdx? (fun part => pyLower part == "objects") with
  | none => none
  | some objectsIdx =>
    if objectsIdx + 1 < parts.length then
      match ((parts.drop (objectsIdx + 1)).dropLast).reverse.find?
          (fun p => !(strEndsWith p ".html") && strStartsWith p "catalog") with
      | some part => some part
      | none =>
        let objectPart := parts.getD (objectsIdx + 1) ""
        if !(strEndsWith objectPart ".html") then some objectPart else none
    else none

/-- HTMLParser._extract_main_object_name. -/
def extract_main_object_name (pathStr : String) : Option String :=
  extract_main_object_name_parts (splitOnSlash pathStr)

/-- Python test `object_name and object_name.lower() == 'global context'`. -/
def isGlobalContextName (o : Option String) : Bool :=
  match o with
  | some s => s != "" && pyLower s == "global context"
  | none => false

/-- HTMLParser._parse_file_path: classify a document by its archive path,
returning `(doc_type, object_name, item_name)`. -/
def parse_file_path (filePath : String) : DocumentType × Option String × String :=
  let pathStr := replaceBackslashes filePath
  let pathParts := splitOnSlash pathStr
  let fileName := stripHtmlExt (pathParts.getLastD "")
  let pathLower := pyLower pathStr
  if strContains pathLower "/methods/" then
    let objectName := extract_object_name pathStr "methods"
    if isGlobalContextName objectName then
      (DocumentType.GLOBAL_FUNCTION, objectName, fileName)
    else
      (DocumentType.OBJECT_FUNCTION, objectName, fileName)
  else if strContains pathLower "/properties/" then
    (DocumentType.OBJECT_PROPERTY, extract_object_name pathStr "properties", fileName)
  else if strContains pathLower "/events/" then
    let objectName := extract_object_name pathStr "events"
    if isGlobalContextName objectName then
      (DocumentType.GLOBAL_EVENT, objectName, fileName)
    else
      (DocumentType.OBJECT_EVENT, objectName, fileName)
  else if strContains pathLower "/ctors/" || strContains pathLower "/ctor/" then
    let o1 := extract_object_name pathStr "ctors"
    let objectName :=
      if pyFalsyStr o1 then extract_object_name pathStr "ctor" else o1
    (DocumentType.OBJECT_CONSTRUCTOR, objectName, fileName)
  else if strContains pathLower "globalfunctions/" || strContains pathLower "/functions/" then
    (DocumentType.GLOBAL_FUNCTION, none, fileName)
  else if strContains pathLower "/objects/" || strStartsWith pathLower "objects/" then
    (DocumentType.OBJECT, extract_main_object_name pathStr, fileName)
  else
    (DocumentType.OBJECT, none, fileName)

/-! ## Content-level document model

The document extractor (`html_parser.py`) consumes the parsed HTML only
through two selections: the texts of the `<p class="V8SH_chapter">` heading
elements and the texts of the `<p class="V8SH_versionInfo">` elements
(each taken with `get_text(strip=True)`, in document order).  `Soup` records
exactly these selections of the parsed markup. -/
structure Soup where
  chapterHeaders : List String := []
  versionElements : List String := []
deriving DecidableEq, Repr

/-- HTMLParser._is_function_not_procedure: scan the `V8SH_chapter` headings for
a text whose lower-casing contains a return-value keyword. -/
def is_function_not_procedure (soup : Soup) : Bool :=
  soup.chapterHeaders.any (fun header =>
    strContains (pyLower header) "возвращаемое" || strContains (pyLower header) "return")

/-- Lines 27-37 of `HTMLParser.parse_html_content`: classify by the file path
and, for the two candidate function kinds, refine function vs. procedure by
the content scan. -/
def parse_html_doc_kind (filePath : String) (soup : Soup) :
    DocumentType × Option String × String :=
  let r := parse_file_path filePath
  if r.1 = DocumentType.GLOBAL_FUNCTION ∨ r.1 = DocumentType.OBJECT_FUNCTION then
    if !(is_function_not_procedure soup) then
      if r.1 = DocumentType.GLOBAL_FUNCTION then
        (DocumentType.GLOBAL_PROCEDURE, r.2.1, r.2.2)
      else
        (DocumentType.OBJECT_PROCEDURE, r.2.1, r.2.2)
    else r
  else r

/-! ## Version extraction (`HTMLParser._extract_version`) -/

/-- ASCII decimal digit (the `\d` of the version regular expression). -/
def isAsciiDigit (c : Char) : Bool := '0' ≤ c && c ≤ '9'

/-- Match of the regular expression `8\.\d+(?:\.\d+)?` anchored at the start of
the character list (with the greedy/optional-group semantics of `re`). -/
def matchVersionAt (l : List Char) : Option (List Char) :=
  match l with
  | '8' :: '.' :: rest =>
    let ds := rest.takeWhile isAsciiDigit
    if ds.isEmpty then none
    else
      match rest.drop ds.length with
      | '.' :: rest2 =>
        let ds2 := rest2.takeWhile isAsciiDigit
        if ds2.isEmpty then some ('8' :: '.' :: ds)
        else some ('8' :: '.' :: ds ++ '.' :: ds2)
      | _ => some ('8' :: '.' :: ds)
  | _ => none

/-- Python `re.search(r'8\.\d+(?:\.\d+)?', text)`: the left-most match. -/
def searchVersion : List Char → Option String
  | [] => none
  | c :: cs =>
    match matchVersionAt (c :: cs) with
    | some m => some (String.mk m)
    | none => searchVersion cs

/-- One iteration of the `for elem in version_elements` loop of
`_extract_version`, threading the current `doc.version_from`. -/
def extract_version_step (versionFrom : Option String) (versionText : String) :
    Option String :=
  match searchVersion versionText.data with
  | none => versionFrom
  | some version =>
    if strContains (pyLower versionText) "доступен"
        || strContains (pyLower versionText) "начиная" then
      some version
    else if strContains (pyLower versionText) "изменен"
        || strContains (pyLower versionText) "описание" then
      if pyFalsyStr versionFrom then some version else versionFrom
    else versionFrom

/-- HTMLParser._extract_version: fold the loop over the `V8SH_versionInfo`
elements, starting from the document's current `version_from`. -/
def extract_version (soup : Soup) (versionFrom : Option String) : Option String :=
  soup.versionElements.foldl extract_version_step versionFrom

/-- Element whose text matches the version pattern and carries an
availability keyword (`доступен`/`начиная`); used to state the corrected
version-extraction claim. -/
def availabilityElem (t : String) : Bool :=
  (searchVersion t.data).isSome &&
  (strContains (pyLower t) "доступен" || strContains (pyLower t) "начиная")

/-- Element whose text matches the version pattern and carries a
change/description keyword (`изменен`/`описание`) but no availability
keyword; used to state the corrected version-extraction claim. -/
def changeElem (t : String) : Bool :=
  (searchVersion t.data).isSome &&
  !(strContains (pyLower t) "доступен" || strContains (pyLower t) "начиная") &&
  (strContains (pyLower t) "изменен" || strContains (pyLower t) "описание")

/-- Specification function for the corrected version-extraction claim: the
version is the first pattern match of the last availability element if one
exists, else the first pattern match of the first change element if one
exists, else the starting value (when that starting value is falsy). -/
def versionFromSpec (elems : List String) (acc : Option String) : Option String :=
  match (elems.filter availabilityElem).getLast? with
  | some t => searchVersion t.data
  | none =>
    if pyFalsyStr acc then
      match (elems.filter changeElem).head? with
      | some t => searchVersion t.data
      | none => acc
    else acc

/-! ## Content decoding (`HTMLParser._decode_content`)

The Python code tries, in order, the codecs `utf-8`, `windows-1251`,
`cp1251` and `iso-8859-1`; a codec that raises `UnicodeDecodeError` is
modelled as returning `none`.  `windows-1251` and `cp1251` are two names of
the same codec, whose only undefined byte is `0x98`; `iso-8859-1` maps every
byte to the character with the same code point and never fails. -/

/-- Decoding of one UTF-8 scalar value from the head of the byte list,
with the strictness of Python's `utf-8` codec: continuation bytes must be
`0x80`-`0xBF`, over-long encodings, surrogate code points and values above
`0x10FFFF` are rejected. -/
def utf8DecodeOne : List UInt8 → Option (Char × List UInt8)
  | [] => none
  | b :: rest =>
    let bn := b.toNat
    if bn < 0x80 then some (Char.ofNat bn, rest)
    else if 0xC0 ≤ bn ∧ bn ≤ 0xDF then
      match rest with
      | c1 :: rest1 =>
        let n1 := c1.toNat
        if 0x80 ≤ n1 ∧ n1 ≤ 0xBF then
          let cp := (bn - 0xC0) * 64 + (n1 - 0x80)
          if 0x80 ≤ cp then some (Char.ofNat cp, rest1) else none
        else none
      | _ => none
    else if 0xE0 ≤ bn ∧ bn ≤ 0xEF then
      match rest with
      | c1 :: c2 :: rest2 =>
        let n1 := c1.toNat
        let n2 := c2.toNat
        if (0x80 ≤ n1 ∧ n1 ≤ 0xBF) ∧ (0x80 ≤ n2 ∧ n2 ≤ 0xBF) then
          let cp := (bn - 0xE0) * 4096 + (n1 - 0x80) * 64 + (n2 - 0x80)
          if 0x800 ≤ cp ∧ ¬(0xD800 ≤ cp ∧ cp ≤ 0xDFFF) then
            some (Char.ofNat cp, rest2)
          else none
        else none
      | _ => none
    else if 0xF0 ≤ bn ∧ bn ≤ 0xF4 then
      match rest with
      | c1 :: c2 :: c3 :: rest3 =>
        let n1 := c1.toNat
        let n2 := c2.toNat
        let n3 := c3.toNat
        if (0x80 ≤ n1 ∧ n1 ≤ 0xBF) ∧ (0x80 ≤ n2 ∧ n2 ≤ 0xBF)
            ∧ (0x80 ≤ n3 ∧ n3 ≤ 0xBF) then
          let cp := (bn - 0xF0) * 262144 + (n1 - 0x80) * 4096
            + (n2 - 0x80) * 64 + (n3 - 0x80)
          if 0x10000 ≤ cp ∧ cp ≤ 0x10FFFF then some (Char.ofNat cp, rest3)
          else none
        else none
      | _ => none
    else none

/-- Fuel-indexed UTF-8 decoding loop; `utf8DecodeOne` consumes at least one
byte per step, so fuel equal to the byte count always suffices. -/
def utf8DecodeAux : Nat → List UInt8 → Option (List Char)
  | _, [] => some []
  | 0, _ :: _ => none
  | fuel + 1, l =>
    match utf8DecodeOne l with
    | none => none
    | some (c, rest) => (utf8DecodeAux fuel rest).map (fun cs => c :: cs)

/-- Python `content.decode('utf-8')`. -/
def utf8Decode (content : List UInt8) : Option String :=
  (utf8DecodeAux content.length content).map String.mk

/-- Code points of the cp1251 bytes `0x80`-`0xBF` (the entry for the
undefined byte `0x98` is a placeholder, handled before the lookup). -/
def cp1251HighTable : List Nat :=
  [1026, 1027, 8218, 1107, 8222, 8230, 8224, 8225,
   8364, 8240, 1033, 8249, 1034, 1036, 1035, 1039,
   1106, 8216, 8217, 8220, 8221, 8226, 8211, 8212,
   0, 8482, 1113, 8250, 1114, 1116, 1115, 1119,
   160, 1038, 1118, 1032, 164, 1168, 166, 167,
   1025, 169, 1028, 171, 172, 173, 174, 1031,
   176, 177, 1030, 1110, 1169, 181, 182, 183,
   1105, 8470, 1108, 187, 1112, 1029, 1109, 1111]

/-- Decoding of one byte under cp1251; byte `0x98` is undefined, bytes
`0xC0`-`0xFF` are the contiguous Cyrillic block starting at U+0410. -/
def cp1251DecodeByte (b : UInt8) : Option Char :=
  if b.toNat < 0x80 then some (Char.ofNat b.toNat)
  else if b.toNat = 0x98 then none
  else if 0xC0 ≤ b.toNat then some (Char.ofNat (0x410 + (b.toNat - 0xC0)))
  else some (Char.ofNat (cp1251HighTable.getD (b.toNat - 0x80) 0))

/-- Python `content.decode('windows-1251')` / `content.decode('cp1251')`. -/
def cp1251Decode (content : List UInt8) : Option String :=
  (content.mapM cp1251DecodeByte).map String.mk

/-- Python `content.decode('iso-8859-1')`: total on every byte sequence. -/
def latin1Decode (content : List UInt8) : Option String :=
  some (String.mk (content.map (fun b => Char.ofNat b.toNat)))

/-- HTMLParser._decode_content: try `utf-8`, `windows-1251`, `cp1251`,
`iso-8859-1` in order; `none` models the final `return None`. -/
def decode_content (content : List UInt8) : Option String :=
  match utf8Decode content with
  | some s => some s
  | none =>
    match cp1251Decode content with
    | some s => some s
    | none =>
      match cp1251Decode content with
      | some s => some s
      | none =>
        match latin1Decode content with
        | some s => some s
        | none => none

/-! ## Indexing progress snapshot (`src/models/index_status.py`) -/

/-- IndexingStatus enumeration. -/
inductive IndexingStatus where
  | idle
  | in_progress
  | completed
  | failed
deriving DecidableEq, Repr

/-- IndexProgressInfo dataclass.  Python `int` fields are `Int`; the two
timestamps are rationals (seconds); optional fields keep their `Optional`
shape. -/
structure IndexProgressInfo where
  status : IndexingStatus := IndexingStatus.idle
  total_documents : Int := 0
  indexed_documents : Int := 0
  start_time : Option ℚ := none
  end_time : Option ℚ := none
  error_message : Option String := none
  file_path : Option String := none
deriving DecidableEq, Repr

/-- IndexProgressInfo.progress_percent. -/
def progress_percent (p : IndexProgressInfo) : ℚ :=
  if p.total_documents = 0 then 0
  else ((p.indexed_documents : ℚ) / (p.total_documents : ℚ)) * 100

/-- IndexProgressInfo.duration_seconds (the wall clock is passed in). -/
def duration_seconds (p : IndexProgressInfo) (now : ℚ) : Option ℚ :=
  match p.start_time with
  | none => none
  | some t0 => some ((p.end_time.getD now) - t0)

/-! ## Further Python string helpers used by `hbk_parser.py` -/

/-- Python `str.split(sep)` for a single-character separator
(keeps empty fields). -/
def splitOnCharList (sep : Char) (s : String) : List String :=
  (s.data.foldr (fun c acc =>
      if c = sep then [] :: acc
      else match acc with
        | [] => [[c]]
        | h :: t => (c :: h) :: t) [[]]).map String.mk

/-- Python `str.strip()`. -/
def pyStrip (s : String) : String :=
  String.mk (((s.data.dropWhile Char.isWhitespace).reverse.dropWhile
    Char.isWhitespace).reverse)

/-- Python `str.split()` with no argument: split on whitespace runs and drop
empty fields. -/
def pySplitWs (s : String) : List String :=
  ((s.data.foldr (fun c acc =>
      if c.isWhitespace then [] :: acc
      else match acc with
        | [] => [[c]]
        | h :: t => (c :: h) :: t) [[]]).filter (fun l => !l.isEmpty)).map String.mk

/-! ## Safe subprocess layer (`src/core/utils.py`) -/

/-- Exception `utils.SafeSubprocessError` (the message is informational). -/
structure SafeSubprocessErrorM where
  msg : String
deriving DecidableEq, Repr

/-- Exception `hbk_parser.HBKParserError`. -/
structure HBKParserErrorM where
  msg : String
deriving DecidableEq, Repr

/-- Python exception escaping a modelled call (only used at `Except` type
boundaries; the pipeline never actually raises one to its caller). -/
structure PyExc where
  msg : String
deriving DecidableEq, Repr

/-- Result of `subprocess.run` as consumed by the parser. -/
structure SubprocessResult where
  returncode : Int
  stdout : String
  stderr : String
deriving DecidableEq, Repr

/-- External-process behaviour: what the operating system answers for a
command vector.  An `Except.error` models `subprocess.TimeoutExpired` or any
other raising call inside `safe_subprocess_run`'s `try` block. -/
structure ArchiveEnv where
  run : List String → Except SafeSubprocessErrorM SubprocessResult

/-- Allow-listed executables of `safe_subprocess_run`. -/
def allowedExecutables : List String := ["7z", "7z.exe", "unzip", "unzip.exe"]

/-- Shell metacharacters rejected by `safe_subprocess_run` (the list
`[";", "&", "|", "` + backtick + `", "$", "(", ")", "<", ">"]`). -/
def forbiddenArgChars : List Char :=
  [';', '&', '|', Char.ofNat 96, '$', '(', ')', '<', '>']

/-- utils.safe_subprocess_run: validates the command, then defers to the
environment for the actual process invocation. -/
def safe_subprocess_run (env : ArchiveEnv) (command : List String) :
    Except SafeSubprocessErrorM SubprocessResult :=
  if command.isEmpty then
    Except.error { msg := "Команда должна быть непустым списком" }
  else if !(allowedExecutables.any (fun a => strEndsWith (command.headD "") a)) then
    Except.error { msg := "Недопустимая команда" }
  else if (command.drop 1).any
      (fun arg => forbiddenArgChars.any (fun ch => arg.data.contains ch)) then
    Except.error { msg := "Подозрительный аргумент" }
  else
    env.run command

/-! ## Filesystem validation (`utils.validate_file_path`) -/

/-- Observable attributes of the input path, as queried by
`validate_file_path` and `parse_file`. -/
structure FileSystem where
  path : String
  fileExists : Bool
  isFile : Bool
  resolvable : Bool
  suffix : String
  size : Nat
  modified : Int
deriving DecidableEq, Repr

/-- utils.validate_file_path. -/
def validate_file_path (fs : FileSystem) (allowedExtensions : List String) :
    Except SafeSubprocessErrorM Bool :=
  if !fs.fileExists then Except.error { msg := "Файл не существует" }
  else if !fs.isFile then Except.error { msg := "Путь не является файлом" }
  else if !fs.resolvable then Except.error { msg := "Невалидный путь" }
  else if !allowedExtensions.isEmpty then
    if !(allowedExtensions.contains (pyLower fs.suffix)) then
      Except.error { msg := "Недопустимое расширение файла" }
    else Except.ok true
  else Except.ok true

/-! ## Archive listing (`HBKParser._extract_external_7z`) -/

/-- The ordered candidate command list `zip_commands`. -/
def zipCommands : List String :=
  ["7z", "7z.exe", "7za", "7za.exe",
   "C:\\Program Files\\7-Zip\\7z.exe",
   "C:\\Program Files (x86)\\7-Zip\\7z.exe",
   "7-Zip\\7z.exe", "7zip\\7z.exe"]

/-- Probe acceptance test of the 7zip discovery loop: exit code 0 or a known
signature in the output; a raising probe is skipped (`except ... continue`). -/
def probeAccepts (env : ArchiveEnv) (cmd : String) : Bool :=
  match safe_subprocess_run env [cmd] with
  | Except.ok r =>
      r.returncode == 0 || strContains r.stdout "Igor Pavlov"
        || strContains r.stdout "7-Zip"
  | Except.error _ => false

/-- One line of the 7zip `l` output, folded over the listing state
(`in_files_section`, accumulated entries); lines 442-468 of
`hbk_parser.py`. -/
def parse7zListingLine (st : Bool × List HBKEntry) (line : String) :
    Bool × List HBKEntry :=
  if strContains line "---------------" then (!st.1, st.2)
  else if st.1 && pyStrip line != "" then
    let parts := pySplitWs line
    if 6 ≤ parts.length then
      let filename := String.intercalate " " (parts.drop 5)
      if filename != "" && !(strStartsWith filename "Date") then
        let sizeField := parts.getD 3 ""
        let size :=
          if sizeField != "" && sizeField.data.all isAsciiDigit then
            sizeField.data.foldl (fun n c => n * 10 + (c.toNat - '0'.toNat)) 0
          else 0
        let isDir :=
          if 2 < parts.length && (parts.getD 2 "").length = 1 then
            parts.getD 2 "" == "D"
          else false
        (st.1, st.2 ++ [{ path := filename, size := size, is_dir := isDir }])
      else st
    else st
  else st

/-- Parse of the tabular 7zip listing output. -/
def parse7zListing (stdout : String) : List HBKEntry :=
  ((splitOnCharList '\n' stdout).foldl parse7zListingLine (false, [])).2

/-- HBKParser._extract_external_7z: probe for a working 7zip, run the `l`
operation, parse its output.  The successful result also carries the
remembered command (`self._zip_command`). -/
def extract_external_7z (env : ArchiveEnv) (filePath : String) :
    Except HBKParserErrorM (List HBKEntry × String) :=
  match zipCommands.find? (probeAccepts env) with
  | none =>
      Except.error { msg := "7zip не найден в системе. Проверьте установку 7-Zip" }
  | some working7z =>
    match safe_subprocess_run env [working7z, "l", filePath] with
    | Except.error _ => Except.error { msg := "Ошибка чтения архива" }
    | Except.ok r =>
      if r.returncode != 0 then Except.error { msg := "Ошибка чтения архива" }
      else Except.ok (parse7zListing r.stdout, working7z)

/-- HBKParser._extract_archive: any raised error is caught and turned into an
empty entry list. -/
def extract_archive (env : ArchiveEnv) (filePath : String) : List HBKEntry :=
  match extract_external_7z env filePath with
  | Except.ok (entries, _) => if entries.isEmpty then [] else entries
  | Except.error _ => []

/-! ## Category metadata (`HBKParser._parse_categories_file`) -/

/-- CategoryInfo (`doc_models.CategoryInfo`). -/
structure CategoryInfo where
  name : String := ""
  description : String := ""
  version_from : Option String := none
  «section» : String := ""
deriving DecidableEq, Repr

/-- HBKFile (`doc_models.HBKFile`). -/
structure HBKFile where
  path : String
  size : Nat
  modified : Int
  entries_count : Nat := 0
deriving DecidableEq, Repr

/-- Match of the regular expression `8\.\d+\.\d+` (both numeric groups are
mandatory here) anchored at the start of the character list. -/
def matchVersion3At (l : List Char) : Option (List Char) :=
  match l with
  | '8' :: '.' :: rest =>
    let ds := rest.takeWhile isAsciiDigit
    if ds.isEmpty then none
    else
      match rest.drop ds.length with
      | '.' :: rest2 =>
        let ds2 := rest2.takeWhile isAsciiDigit
        if ds2.isEmpty then none
        else some ('8' :: '.' :: ds ++ '.' :: ds2)
      | _ => none
  | _ => none

/-- Python `re.search(r'8\.\d+\.\d+', line)`: the left-most match. -/
def searchVersion3 : List Char → Option String
  | [] => none
  | c :: cs =>
    match matchVersion3At (c :: cs) with
    | some m => some (String.mk m)
    | none => searchVersion3 cs

/-- The version scan of `_parse_categories_file`: the first stripped line
containing a version keyword and matching `8\.\d+\.\d+` provides the
version (the loop `break`s only after a successful match). -/
def findCategoriesVersion : List String → Option String
  | [] => none
  | line :: rest =>
    let stripped := pyStrip line
    if strContains (pyLower stripped) "version"
        || strContains (pyLower stripped) "версия" then
      match searchVersion3 stripped.data with
      | some v => some v
      | none => findCategoriesVersion rest
    else findCategoriesVersion rest

/-- Python `dict[key] = value` on an association list. -/
def assocSet (k : String) (v : CategoryInfo) (l : List (String × CategoryInfo)) :
    List (String × CategoryInfo) :=
  if l.any (fun p => p.1 == k) then
    l.map (fun p => if p.1 == k then (k, v) else p)
  else l ++ [(k, v)]

/-- HBKParser._parse_categories_file.  The decode loop iterates over the
constant `SUPPORTED_ENCODINGS`; that constants module is not under `src/`, so
the encoding list is modelled from the spec ("parses archive metadata
side-files", "tries a fixed ordered list of text encodings") as the same
chain the document extractor uses (`decode_content`). -/
def parse_categories_file (entry : HBKEntry)
    (categories : List (String × CategoryInfo)) : List (String × CategoryInfo) :=
  match entry.content with
  | none => categories
  | some bytes =>
    if bytes.isEmpty then categories
    else
      match decode_content bytes with
      | none => categories
      | some content =>
        if content == "" then categories
        else
          let pathParts := splitOnSlash (replaceBackslashes entry.path)
          let sectionName :=
            if 1 < pathParts.length then pathParts.getD (pathParts.length - 2) ""
            else "unknown"
          let category : CategoryInfo :=
            { name := sectionName
              «section» := sectionName
              description := "Раздел документации: " ++ sectionName
              version_from := findCategoriesVersion (splitOnCharList '\n' content) }
          assocSet sectionName category categories

/-! ## Ingestion result (`doc_models.ParsedHBK`) and structure analysis -/

/-- Per-category processing cursors (`categories_processed` in
`_analyze_structure`). -/
structure CategoriesProcessed where
  global_methods : Nat := 0
  global_events : Nat := 0
  global_context : Nat := 0
  object_constructors : Nat := 0
  object_events : Nat := 0
  other_objects : Nat := 0
deriving DecidableEq, Repr

/-- The statistics map assembled at the end of `_analyze_structure`
(`result.stats`), with its dict keys as fields. -/
structure AnalyzeStats where
  html_files : Nat
  global_methods_files : Nat
  global_events_files : Nat
  global_context_files : Nat
  object_constructors_files : Nat
  object_events_files : Nat
  other_object_files : Nat
  processed_html : Nat
  categories_processed : CategoriesProcessed
  found_types : List (DocumentType × Nat)
  st_files : Nat
  category_files : Nat
  total_entries : Nat
deriving DecidableEq, Repr

/-- ParsedHBK (`doc_models.ParsedHBK`); `stats` is `none` until
`_analyze_structure` assigns it. -/
structure ParsedHBK where
  file_info : HBKFile
  categories : List (String × CategoryInfo) := []
  documentation : List Documentation := []
  errors : List String := []
  stats : Option AnalyzeStats := none
deriving DecidableEq, Repr

/-- The six path-based buckets of `_analyze_structure`. -/
structure Buckets where
  global_methods_files : List HBKEntry := []
  global_events_files : List HBKEntry := []
  global_context_files : List HBKEntry := []
  object_constructors_files : List HBKEntry := []
  object_events_files : List HBKEntry := []
  other_object_files : List HBKEntry := []
deriving DecidableEq, Repr

/-- Accumulator of the classification pass over the entry listing
(lines 134-175 of `hbk_parser.py`). -/
structure ScanState where
  buckets : Buckets := {}
  html_files : Nat := 0
  st_files : Nat := 0
  category_files : Nat := 0
  categories : List (String × CategoryInfo) := []
deriving Repr

/-- Classification of one archive entry into the statistics counters and the
six buckets, in the source's condition order. -/
def scanEntry (st : ScanState) (entry : HBKEntry) : ScanState :=
  if entry.is_dir then st
  else
    let pathParts := splitOnSlash (replaceBackslashes entry.path)
    if pathParts.getLastD "" == "__categories__" then
      { st with category_files := st.category_files + 1
                categories := parse_categories_file entry st.categories }
    else if strEndsWith entry.path ".html" then
      let st := { st with html_files := st.html_files + 1 }
      if strContains entry.path "objects/Global context/methods"
          || strContains entry.path "objects\\Global context\\methods" then
        { st with buckets.global_methods_files :=
            st.buckets.global_methods_files ++ [entry] }
      else if strContains entry.path "objects/Global context/events"
          || strContains entry.path "objects\\Global context\\events" then
        { st with buckets.global_events_files :=
            st.buckets.global_events_files ++ [entry] }
      else if strContains entry.path "objects/Global context"
          || strContains entry.path "objects\\Global context" then
        { st with buckets.global_context_files :=
            st.buckets.global_context_files ++ [entry] }
      else if strContains entry.path "/ctors/" || strContains entry.path "\\ctors\\"
          || strContains entry.path "/ctor/" || strContains entry.path "\\ctor\\" then
        { st with buckets.object_constructors_files :=
            st.buckets.object_constructors_files ++ [entry] }
      else if (strContains entry.path "/events/" || strContains entry.path "\\events\\")
          && !(strContains entry.path "Global context") then
        { st with buckets.object_events_files :=
            st.buckets.object_events_files ++ [entry] }
      else if strContains entry.path "objects/" || strContains entry.path "objects\\" then
        { st with buckets.other_object_files :=
            st.buckets.other_object_files ++ [entry] }
      else st
    else if strEndsWith entry.path ".st" then
      { st with st_files := st.st_files + 1 }
    else st

/-- Constant `min_per_type` of `_analyze_structure`. -/
def minPerType : Nat := 3

/-- Constant `batch_size` of the quota-seeking loop. -/
def batchSize : Nat := 5

/-- The hard cap on processed files (`processed_html < 100`). -/
def maxFilesTotal : Nat := 100

/-- The nine target kinds tracked by `target_types`, in dict order. -/
def targetTypesList : List DocumentType :=
  [DocumentType.GLOBAL_FUNCTION, DocumentType.GLOBAL_PROCEDURE,
   DocumentType.GLOBAL_EVENT, DocumentType.OBJECT_FUNCTION,
   DocumentType.OBJECT_PROCEDURE, DocumentType.OBJECT_PROPERTY,
   DocumentType.OBJECT_EVENT, DocumentType.OBJECT_CONSTRUCTOR,
   DocumentType.OBJECT]

/-- Count of accumulated documents of one kind (`check_found_types`). -/
def countType (docs : List Documentation) (t : DocumentType) : Nat :=
  docs.countP (fun d => d.type == t)

/-- Predicate `all_types_found` of `_analyze_structure`. -/
def all_types_found (docs : List Documentation) : Bool :=
  targetTypesList.all (fun t => minPerType ≤ countType docs t)

/-- Mutable state of the quota-seeking loop: the six buckets (fixed), the
per-category cursors, the processed-file counter and the accumulated
documents. -/
structure AnalyzeState where
  global_methods_files : List HBKEntry := []
  global_events_files : List HBKEntry := []
  global_context_files : List HBKEntry := []
  object_constructors_files : List HBKEntry := []
  object_events_files : List HBKEntry := []
  other_object_files : List HBKEntry := []
  categories_processed : CategoriesProcessed := {}
  processed_html : Nat := 0
  documentation : List Documentation := []
deriving Repr

/-- One `for i in range(batch_size)` block of the loop: `n` counts the
remaining slots, `idx` is `cursor + i`.  Each slot whose index is inside the
bucket and whose quota condition holds processes one entry: the extraction
outcome `docOf` appends at most one document, and `processed_html` always
increments (`_create_document_from_html` counts as processed even when it
produces nothing). -/
def processSlice (docOf : HBKEntry → Option Documentation) (cond : Bool)
    (files : List HBKEntry) :
    Nat → Nat → List Documentation × Nat → List Documentation × Nat
  | _, 0, acc => acc
  | idx, n + 1, acc =>
    let acc' :=
      if idx < files.length && cond then
        match docOf (files.getD idx default) with
        | some d => (acc.1 ++ [d], acc.2 + 1)
        | none => (acc.1, acc.2 + 1)
      else acc
    processSlice docOf cond files (idx + 1) n acc'

/-- One pass of the quota-seeking `while` loop: six bucket blocks in order.
The quota conditions read the type counters as recomputed at the end of the
previous pass, i.e. the counts over the documents accumulated at pass
start. -/
def onePass (docOf : HBKEntry → Option Documentation) (s : AnalyzeState) :
    AnalyzeState :=
  let docs := s.documentation
  let q1 := decide (countType docs DocumentType.GLOBAL_FUNCTION < minPerType)
         || decide (countType docs DocumentType.GLOBAL_PROCEDURE < minPerType)
  let a1 := processSlice docOf q1 s.global_methods_files
    s.categories_processed.global_methods batchSize (s.documentation, s.processed_html)
  let q2 := decide (countType docs DocumentType.GLOBAL_EVENT < minPerType)
  let a2 := processSlice docOf q2 s.global_events_files
    s.categories_processed.global_events batchSize a1
  let q3 := decide (countType docs DocumentType.OBJECT_PROPERTY < minPerType)
  let a3 := processSlice docOf q3 s.global_context_files
    s.categories_processed.global_context batchSize a2
  let q4 := decide (countType docs DocumentType.OBJECT_CONSTRUCTOR < minPerType)
  let a4 := processSlice docOf q4 s.object_constructors_files
    s.categories_processed.object_constructors batchSize a3
  let q5 := decide (countType docs DocumentType.OBJECT_EVENT < minPerType)
  let a5 := processSlice docOf q5 s.object_events_files
    s.categories_processed.object_events batchSize a4
  let q6 := decide (countType docs DocumentType.OBJECT_FUNCTION < minPerType)
         || decide (countType docs DocumentType.OBJECT_PROCEDURE < minPerType)
         || decide (countType docs DocumentType.OBJECT < minPerType)
  let a6 := processSlice docOf q6 s.other_object_files
    s.categories_processed.other_objects batchSize a5
  { s with
    categories_processed :=
      { global_methods := s.categories_processed.global_methods + batchSize
        global_events := s.categories_processed.global_events + batchSize
        global_context := s.categories_processed.global_context + batchSize
        object_constructors := s.categories_processed.object_constructors + batchSize
        object_events := s.categories_processed.object_events + batchSize
        other_objects := s.categories_processed.other_objects + batchSize }
    processed_html := a6.2
    documentation := a6.1 }

/-- The quota-seeking `while` loop of `_analyze_structure`: run passes while
not all kinds reached the minimum and the hard cap is not hit; a pass that
processes no new file ends the loop. -/
def analyzeLoop (docOf : HBKEntry → Option Documentation) (s : AnalyzeState) :
    AnalyzeState :=
  if h : all_types_found s.documentation = true ∨ maxFilesTotal ≤ s.processed_html then s
  else
    let s' := onePass docOf s
    if h2 : s'.processed_html = s.processed_html then s'
    else analyzeLoop docOf s'
termination_by maxFilesTotal - s.processed_html
decreasing_by
  have slice_mono : ∀ (cond : Bool) (files : List HBKEntry) (n idx : Nat)
      (acc : List Documentation × Nat) (m : Nat),
      m ≤ acc.2 → m ≤ (processSlice docOf cond files idx n acc).2 := by
    intro cond files n
    induction n with
    | zero => intro idx acc m hm; simpa [processSlice] using hm
    | succ k ih =>
      intro idx acc m hm
      rw [processSlice]
      apply ih
      dsimp only
      split
      · split <;> (dsimp only; omega)
      · exact hm
  have hmono : s.processed_html ≤ (onePass docOf s).processed_html := by
    unfold onePass
    exact slice_mono _ _ _ _ _ _ (slice_mono _ _ _ _ _ _ (slice_mono _ _ _ _ _ _
      (slice_mono _ _ _ _ _ _ (slice_mono _ _ _ _ _ _
        (slice_mono _ _ _ _ _ _ le_rfl)))))
  have hcap : ¬ (maxFilesTotal ≤ s.processed_html) := fun hh => h (Or.inr hh)
  have hs' : s' = onePass docOf s := rfl
  rw [hs'] at h2
  omega

/-- HBKParser._analyze_structure: classify the entry listing, run the
quota-seeking loop, then record the statistics into the result.  The
per-entry extraction outcome (`_create_document_from_html`, which reads the
entry content through the remembered archive handle and runs the HTML
extractor on it) is abstracted into `docOf`. -/
def analyze_structure (docOf : HBKEntry → Option Documentation)
    (entries : List HBKEntry) (result : ParsedHBK) : ParsedHBK :=
  let scan := entries.foldl scanEntry { categories := result.categories }
  let s0 : AnalyzeState :=
    { global_methods_files := scan.buckets.global_methods_files
      global_events_files := scan.buckets.global_events_files
      global_context_files := scan.buckets.global_context_files
      object_constructors_files := scan.buckets.object_constructors_files
      object_events_files := scan.buckets.object_events_files
      other_object_files := scan.buckets.other_object_files
      categories_processed := {}
      processed_html := 0
      documentation := result.documentation }
  let final := analyzeLoop docOf s0
  { result with
    documentation := final.documentation
    categories := scan.categories
    stats := some
      { html_files := scan.html_files
        global_methods_files := scan.buckets.global_methods_files.length
        global_events_files := scan.buckets.global_events_files.length
        global_context_files := scan.buckets.global_context_files.length
        object_constructors_files := scan.buckets.object_constructors_files.length
        object_events_files := scan.buckets.object_events_files.length
        other_object_files := scan.buckets.other_object_files.length
        processed_html := final.processed_html
        categories_processed := final.categories_processed
        found_types := targetTypesList.map
          (fun t => (t, countType final.documentation t))
        st_files := scan.st_files
        category_files := scan.category_files
        total_entries := entries.length } }

/-- The allow-listed input extensions (`self.supported_extensions`). -/
def supportedExtensions : List String := [".hbk", ".zip", ".7z"]

/-- HBKParser.parse_file.  The byte ceiling `self._max_file_size` comes from
`MAX_FILE_SIZE_MB` in `src/core/constants.py`, which is not under `src/`;
following the spec ("configurable byte ceiling") it is passed in as
`maxFileSize`.  The Python signature is `Optional[ParsedHBK]`; the outer
`Except` layer carries any exception that would escape to the caller — the
function never produces `Except.error`, because every raising step is inside
a `try`/`except` that logs and falls back. -/
def parse_file (docOf : HBKEntry → Option Documentation) (env : ArchiveEnv)
    (maxFileSize : Nat) (fs : FileSystem) : Except PyExc (Option ParsedHBK) :=
  match validate_file_path fs supportedExtensions with
  | Except.error _ => Except.ok none
  | Except.ok _ =>
    if maxFileSize < fs.size then Except.ok none
    else
      let result : ParsedHBK :=
        { file_info := { path := fs.path, size := fs.size, modified := fs.modified } }
      let entries := extract_archive env fs.path
      if entries.isEmpty then
        Except.ok (some { result with
          errors := result.errors ++ ["Не удалось извлечь файлы из архива"] })
      else
        let result := { result with
          file_info := { result.file_info with entries_count := entries.length } }
        Except.ok (some (analyze_structure docOf entries result))

/-! ## Exception boundaries of per-entry extraction

`HTMLParser.parse_html_content` wraps its whole body in `try`/`except
Exception`, returning `None` on any raise; `HBKParser._create_document_from_html`
does the same around content extraction plus parsing, appending nothing on
any raise.  The fallible bodies are modelled as arbitrary `Except`-valued
functions. -/

/-- The `try`/`except` wrapper of `HTMLParser.parse_html_content`: the body
(decode, soup construction, all field extraction) either returns an optional
document or raises. -/
def parse_html_content_guard
    (body : List UInt8 → String → Except PyExc (Option Documentation))
    (content : List UInt8) (filePath : String) : Option Documentation :=
  match body content filePath with
  | Except.ok r => r
  | Except.error _ => none

/-- The `try`/`except` wrapper of `HBKParser._create_document_from_html`:
`step` is the body (content extraction plus HTML parsing, which may raise,
may produce no document, or may produce one); the accumulated documentation
list is extended by at most one document and is untouched on a raise. -/
def create_document_from_html
    (step : HBKEntry → Except PyExc (Option Documentation))
    (entry : HBKEntry) (docs : List Documentation) : List Documentation :=
  match step entry with
  | Except.ok (some d) => docs ++ [d]
  | Except.ok none => docs
  | Except.error _ => docs

/-- A batch of entries driven through `create_document_from_html`, as the
orchestration loop does for each bucket slice. -/
def process_entries (step : HBKEntry → Except PyExc (Option Documentation))
    (docs : List Documentation) (entries : List HBKEntry) : List Documentation :=
  entries.foldl (fun acc entry => create_document_from_html step entry acc) docs

/-! ## Temporary-directory discipline (`HBKParser._extract_single_file`)

The world is the set of live temporary directories (named by numbers); the
body of the `try` is abstracted into its three possible outcomes: a completed
subprocess (with exit code and the files found under the directory), a raised
`SafeSubprocessError`, or any other exception (e.g. from reading the
extracted file), which the function does not catch.  `finally` runs
`safe_remove_dir` on every one of these paths. -/

/-- Outcome of the `try` body of `_extract_single_file`. -/
inductive RunOutcome where
  | completed (returncode : Int) (files : List (List UInt8))
  | subprocessError
  | otherError
deriving DecidableEq, Repr

/-- Fresh directory name: one larger than every live directory. -/
def freshDir (world : List Nat) : Nat := world.foldr max 0 + 1

/-- utils.create_safe_temp_dir: `tempfile.mkdtemp` creates a directory that
did not exist before. -/
def create_safe_temp_dir (world : List Nat) : List Nat × Nat :=
  (freshDir world :: world, freshDir world)

/-- utils.safe_remove_dir: removes the directory if it exists. -/
def safe_remove_dir (d : Nat) (world : List Nat) : List Nat :=
  if world.contains d then world.erase d else world

/-- HBKParser._extract_single_file: create a fresh temporary directory, run
the extraction body, read the first extracted file on exit code 0, and remove
the directory on every exit path (`finally`).  The returned `Except` carries
an exception that escapes the function (only the `otherError` case; a
`SafeSubprocessError` is caught and turned into `None`). -/
def extract_single_file (outcome : RunOutcome) (world : List Nat) :
    List Nat × Except PyExc (Option (List UInt8)) :=
  let created := create_safe_temp_dir world
  let tempDir := created.2
  let world1 := created.1
  match outcome with
  | RunOutcome.completed rc files =>
    let res := if rc = 0 then files.head? else none
    (safe_remove_dir tempDir world1, Except.ok res)
  | RunOutcome.subprocessError =>
    (safe_remove_dir tempDir world1, Except.ok none)
  | RunOutcome.otherError =>
    (safe_remove_dir tempDir world1, Except.error { msg := "unexpected" })

/-! ## Theorems -/

/-- C1 (counterexample): the claim "`progress_percent` is always in
`[0, 100]` for every `IndexProgressInfo` state" fails at the state with
`total_documents = 1`, `indexed_documents = 2`, where the derived value
is `200`. -/
theorem C1_counterexample :
    ¬ (progress_percent { total_documents := 1, indexed_documents := 2 } ≤ 100) := by
  norm_num [progress_percent]

/-- C1 (amended): for every state, `progress_percent` equals `0` when
`total_documents = 0`, regardless of `indexed_documents` (first conjunct,
unconditional); and whenever `0 ≤ indexed_documents ≤ total_documents` the
derived value lies in `[0, 100]` (second conjunct). -/
theorem C1_progress_percent_bounds (p : IndexProgressInfo) :
    (p.total_documents = 0 → progress_percent p = 0) ∧
    (0 ≤ p.indexed_documents → p.indexed_documents ≤ p.total_documents →
      0 ≤ progress_percent p ∧ progress_percent p ≤ 100) := by
  constructor
  · intro ht
    simp [progress_percent, ht]
  · intro h0 h1
    by_cases ht : p.total_documents = 0
    · simp [progress_percent, ht]
    · have htpos : 0 < p.total_documents :=
        lt_of_le_of_ne (le_trans h0 h1) (Ne.symm ht)
      have htq : 0 < (p.total_documents : ℚ) := by exact_mod_cast htpos
      have hiq : 0 ≤ (p.indexed_documents : ℚ) := by exact_mod_cast h0
      have hleq : (p.indexed_documents : ℚ) ≤ (p.total_documents : ℚ) := by
        exact_mod_cast h1
      constructor
      · rw [progress_percent, if_neg ht]
        exact mul_nonneg (div_nonneg hiq (le_of_lt htq)) (by norm_num)
      · rw [progress_percent, if_neg ht]
        have hdiv : (p.indexed_documents : ℚ) / (p.total_documents : ℚ) ≤ 1 :=
          (div_le_one htq).mpr hleq
        calc (p.indexed_documents : ℚ) / (p.total_documents : ℚ) * 100
            ≤ 1 * 100 := mul_le_mul_of_nonneg_right hdiv (by norm_num)
          _ = 100 := by norm_num

/-- C1 (witness): the amended theorem applied at `total = 0, indexed = 5`
(the zero-total clause with a positive indexed count) and at
`total = 2, indexed = 1` (the bounds clause). -/
theorem C1_witness :
    progress_percent { total_documents := 0, indexed_documents := 5 } = 0 ∧
    (0 ≤ progress_percent { total_documents := 2, indexed_documents := 1 } ∧
      progress_percent { total_documents := 2, indexed_documents := 1 } ≤ 100) :=
  ⟨(C1_progress_percent_bounds
      { total_documents := 0, indexed_documents := 5 }).1 rfl,
   (C1_progress_percent_bounds
      { total_documents := 2, indexed_documents := 1 }).2 (by decide) (by decide)⟩

/-- C9: the decoder chain of `_decode_content` always succeeds — its final
codec `iso-8859-1` is total on byte sequences, so the `return None` branch is
unreachable and the extractor never gives up because of a decoding failure. -/
theorem C9_decode_never_fails (content : List UInt8) :
    (decode_content content).isSome = true := by
  unfold decode_content
  cases utf8Decode content <;> cases cp1251Decode content <;>
    simp [latin1Decode]

/-- Auxiliary bound: every member of a list is at most its `foldr max 0`. -/
theorem aux_le_foldr_max (world : List Nat) :
    ∀ d ∈ world, d ≤ world.foldr max 0 := by
  induction world with
  | nil => intro d hd; cases hd
  | cons a l ih =>
    intro d hd
    rcases List.mem_cons.mp hd with rfl | hd
    · exact le_max_left _ _
    · exact le_trans (ih d hd) (le_max_right _ _)

/-- C6: every call of `_extract_single_file` creates a fresh temporary
directory (one that did not exist before the call) and the set of live
temporary directories after the call equals the set before it, on every exit
path — successful extraction, non-zero exit code, caught
`SafeSubprocessError`, and an uncaught exception alike. -/
theorem C6_temp_dir_scoped (world : List Nat) (outcome : RunOutcome) :
    (create_safe_temp_dir world).2 ∉ world ∧
    (extract_single_file outcome world).1 = world := by
  have hfresh : freshDir world ∉ world := by
    intro hmem
    have hle := aux_le_foldr_max world _ hmem
    simp only [freshDir] at hle
    omega
  constructor
  · exact hfresh
  · have herase : safe_remove_dir (freshDir world) (freshDir world :: world) = world := by
      simp [safe_remove_dir, List.contains_cons]
    cases outcome <;>
      simp [extract_single_file, create_safe_temp_dir, herase]

/-- C4: per-entry extraction never propagates an exception to its caller: a
raising body inside `parse_html_content` yields `None`, a raising step inside
`_create_document_from_html` leaves the accumulated documents untouched, and
a batch containing a raising entry still processes all entries before and
after it exactly as if the failing entry produced zero documents. -/
theorem C4_per_entry_errors_never_abort
    (step : HBKEntry → Except PyExc (Option Documentation))
    (bad : HBKEntry) (e : PyExc) (h : step bad = Except.error e) :
    (∀ docs, create_document_from_html step bad docs = docs) ∧
    (∀ docs xs ys, process_entries step docs (xs ++ bad :: ys) =
        process_entries step (process_entries step docs xs) ys) ∧
    (∀ (body : List UInt8 → String → Except PyExc (Option Documentation))
        (content : List UInt8) (fp : String) (e2 : PyExc),
        body content fp = Except.error e2 →
        parse_html_content_guard body content fp = none) := by
  have hskip : ∀ docs, create_document_from_html step bad docs = docs := by
    intro docs
    unfold create_document_from_html
    rw [h]
  refine ⟨hskip, ?_, ?_⟩
  · intro docs xs ys
    unfold process_entries
    rw [List.foldl_append, List.foldl_cons, hskip]
  · intro body content fp e2 hb
    unfold parse_html_content_guard
    rw [hb]

/-- C4 (witness): a step that always raises leaves an empty batch
accumulator empty. -/
theorem C4_witness :
    create_document_from_html (fun _ => Except.error { msg := "boom" })
      { path := "objects/x.html" } [] = [] :=
  (C4_per_entry_errors_never_abort (fun _ => Except.error { msg := "boom" })
    { path := "objects/x.html" } { msg := "boom" } rfl).1 []

/-- C10: a path that triggers none of the classification conditions of
`_parse_file_path` — no `methods`/`properties`/`events`/`ctors`/`ctor`
segment, no `globalfunctions/` or `/functions/` fragment and no `objects`
segment — falls through to the default branch: it is classified as an object
container (`DocumentType.OBJECT`) with no owning object and with the name
equal to the last path segment stripped of its `.html` extension; no path is
ever rejected. -/
theorem C10_unrecognized_paths_default (path : String)
    (h1 : strContains (pyLower (replaceBackslashes path)) "/methods/" = false)
    (h2 : strContains (pyLower (replaceBackslashes path)) "/properties/" = false)
    (h3 : strContains (pyLower (replaceBackslashes path)) "/events/" = false)
    (h4 : strContains (pyLower (replaceBackslashes path)) "/ctors/" = false)
    (h5 : strContains (pyLower (replaceBackslashes path)) "/ctor/" = false)
    (h6 : strContains (pyLower (replaceBackslashes path)) "globalfunctions/" = false)
    (h7 : strContains (pyLower (replaceBackslashes path)) "/functions/" = false)
    (h8 : strContains (pyLower (replaceBackslashes path)) "/objects/" = false)
    (h9 : strStartsWith (pyLower (replaceBackslashes path)) "objects/" = false) :
    parse_file_path path =
      (DocumentType.OBJECT, none,
        stripHtmlExt ((splitOnSlash (replaceBackslashes path)).getLastD "")) := by
  unfold parse_file_path
  simp [h1, h2, h3, h4, h5, h6, h7, h8, h9]

/-- C10 (witness): the default classification applied to
`misc/readme.html`. -/
theorem C10_witness :
    parse_file_path "misc/readme.html" = (DocumentType.OBJECT, none, "readme") := by
  rw [C10_unrecognized_paths_default "misc/readme.html" (by decide) (by decide)
    (by decide) (by decide) (by decide) (by decide) (by decide) (by decide)
    (by decide)]
  decide

/-- C2: for every path that triggers the `methods` classification (the
candidate function/procedure kinds), the final kind is a function kind if and
only if some `V8SH_chapter` heading of the content contains a return-value
keyword (`возвращаемое`/`return`, case-insensitively); absent such a heading
the kind is the corresponding procedure kind; and the scope (global for an
owning segment `Global context`, object otherwise) depends only on the path,
so a Global-context methods path never yields an object-scoped kind. -/
theorem C2_methods_kind_refinement (filePath : String) (soup : Soup)
    (h : strContains (pyLower (replaceBackslashes filePath)) "/methods/" = true) :
    (is_function_not_procedure soup = true ↔
      ∃ header ∈ soup.chapterHeaders,
        strContains (pyLower header) "возвращаемое" = true ∨
        strContains (pyLower header) "return" = true) ∧
    parse_html_doc_kind filePath soup =
      ((if isGlobalContextName
            (extract_object_name (replaceBackslashes filePath) "methods") then
          (if is_function_not_procedure soup then DocumentType.GLOBAL_FUNCTION
           else DocumentType.GLOBAL_PROCEDURE)
        else
          (if is_function_not_procedure soup then DocumentType.OBJECT_FUNCTION
           else DocumentType.OBJECT_PROCEDURE)),
       extract_object_name (replaceBackslashes filePath) "methods",
       stripHtmlExt ((splitOnSlash (replaceBackslashes filePath)).getLastD "")) := by
  constructor
  · simp [is_function_not_procedure, List.any_eq_true, Bool.or_eq_true]
  · unfold parse_html_doc_kind parse_file_path
    simp only [h, if_true]
    by_cases hg : isGlobalContextName
        (extract_object_name (replaceBackslashes filePath) "methods") = true <;>
      by_cases hf : is_function_not_procedure soup = true <;>
        simp [hg, hf]

/-- C2 (witness): the refinement theorem instantiated at a Global-context
methods path whose content has a return-value heading. -/
theorem C2_witness :
    parse_html_doc_kind "objects/Global context/methods/Foo.html"
      { chapterHeaders := ["Возвращаемое значение:"] } =
    (DocumentType.GLOBAL_FUNCTION, some "Global context", "Foo") := by
  rw [(C2_methods_kind_refinement "objects/Global context/methods/Foo.html"
    { chapterHeaders := ["Возвращаемое значение:"] } (by decide)).2]
  decide

/-- Auxiliary shape fact: a successful match of the version pattern starts
with the characters `8.`. -/
theorem aux_matchVersionAt_shape (l m : List Char) (h : matchVersionAt l = some m) :
    ∃ tl, m = '8' :: '.' :: tl := by
  unfold matchVersionAt at h
  split at h
  · dsimp only at h
    split at h
    · exact absurd h (by simp)
    · split at h
      · split at h
        · exact ⟨_, (Option.some.inj h).symm⟩
        · exact ⟨_, (Option.some.inj h).symm⟩
      · exact ⟨_, (Option.some.inj h).symm⟩
  · exact absurd h (by simp)

/-- Auxiliary: a successful version search never returns the empty string. -/
theorem aux_searchVersion_ne_empty (l : List Char) (s : String)
    (h : searchVersion l = some s) : s ≠ "" := by
  induction l with
  | nil => simp [searchVersion] at h
  | cons c cs ih =>
    rw [searchVersion] at h
    cases hm : matchVersionAt (c :: cs) with
    | some m =>
      rw [hm] at h
      obtain ⟨tl, rfl⟩ := aux_matchVersionAt_shape _ _ hm
      have hs := Option.some.inj h
      intro hcon
      rw [← hs] at hcon
      simpa using congrArg String.data hcon
    | none =>
      rw [hm] at h
      exact ih h

/-- Auxiliary: the loop of `_extract_version`, from any starting value,
computes exactly the last-availability-else-first-change characterization. -/
theorem aux_extract_version_foldl (elems : List String) :
    ∀ acc, elems.foldl extract_version_step acc = versionFromSpec elems acc := by
  induction elems with
  | nil =>
    intro acc
    simp only [List.foldl_nil, versionFromSpec, List.filter_nil, List.getLast?_nil,
      List.head?_nil]
    split <;> rfl
  | cons t ts ih =>
    intro acc
    rw [List.foldl_cons, ih]
    cases hm : searchVersion t.data with
    | none =>
      have havail : availabilityElem t = false := by
        simp [availabilityElem, hm]
      have hchange : changeElem t = false := by
        simp [changeElem, hm]
      have hstep : extract_version_step acc t = acc := by
        rw [extract_version_step, hm]
      rw [hstep]
      simp only [versionFromSpec, List.filter_cons, havail, hchange,
        Bool.false_eq_true, if_false]
    | some v =>
      have hv : v ≠ "" := aux_searchVersion_ne_empty _ _ hm
      have hvfalsy : pyFalsyStr (some v) = false := by
        simp [pyFalsyStr, hv]
      by_cases ha : (strContains (pyLower t) "доступен"
          || strContains (pyLower t) "начиная") = true
      · -- availability element: overwrites unconditionally
        have havail : availabilityElem t = true := by
          simp [availabilityElem, hm, ha]
        have hstep : extract_version_step acc t = some v := by
          simp only [extract_version_step, hm]
          rw [if_pos ha]
        rw [hstep]
        simp only [versionFromSpec, List.filter_cons, havail, if_true]
        cases hfl : ts.filter availabilityElem with
        | nil =>
          simp [hvfalsy, hm]
        | cons b bl =>
          rw [List.getLast?_cons_cons]
          cases hgl : (b :: bl).getLast? with
          | some u => rfl
          | none => simp [List.getLast?_eq_none_iff] at hgl
      · have ha' : (strContains (pyLower t) "доступен"
            || strContains (pyLower t) "начиная") = false := by
          simpa using ha
        have havail : availabilityElem t = false := by
          simp [availabilityElem, hm, ha']
        by_cases hc : (strContains (pyLower t) "изменен"
            || strContains (pyLower t) "описание") = true
        · -- change element: sets only a falsy value
          have hchange : changeElem t = true := by
            simp [changeElem, hm, ha', hc]
          have hstep : extract_version_step acc t =
              if pyFalsyStr acc then some v else acc := by
            simp only [extract_version_step, hm]
            rw [if_neg ha, if_pos hc]
          by_cases hacc : pyFalsyStr acc = true
          · rw [hstep, if_pos hacc]
            simp only [versionFromSpec, List.filter_cons, havail, hchange,
              Bool.false_eq_true, if_false, if_true]
            cases hfil : (ts.filter availabilityElem).getLast? with
            | some u => rfl
            | none => simp [hvfalsy, hacc, hm]
          · have hacc' : pyFalsyStr acc = false := by simpa using hacc
            rw [hstep, if_neg hacc]
            simp only [versionFromSpec, List.filter_cons, havail, hchange,
              Bool.false_eq_true, if_false, if_true]
            cases hfil : (ts.filter availabilityElem).getLast? with
            | some u => rfl
            | none => simp [hacc']
        · -- neither keyword: the element is skipped
          have hc' : (strContains (pyLower t) "изменен"
              || strContains (pyLower t) "описание") = false := by
            simpa using hc
          have hchange : changeElem t = false := by
            simp [changeElem, hm, ha', hc']
          have hstep : extract_version_step acc t = acc := by
            simp only [extract_version_step, hm]
            rw [if_neg ha, if_neg hc]
          rw [hstep]
          simp only [versionFromSpec, List.filter_cons, havail, hchange,
            Bool.false_eq_true, if_false]

/-- C8 (counterexample): the claim "the extracted version equals the first
pattern match, independent of any other wording in the element" fails both
ways: an element matching `8.1` with no context keyword sets nothing, and of
two availability elements the last one wins, not the first. -/
theorem C8_counterexample :
    searchVersion ("8.1").data = some "8.1" ∧
    extract_version { versionElements := ["8.1"] } none = none ∧
    extract_version { versionElements :=
      ["Доступен начиная с версии 8.1", "Доступен начиная с версии 8.2"] } none =
      some "8.2" := by
  refine ⟨by decide, by decide, by decide⟩

/-- C8 (amended): starting from an unset version, `_extract_version` yields
the first `8.N[.N]` match of the last version element that matches the
pattern and contains an availability keyword; failing that, the first match
of the first element that matches and contains a change/description keyword;
failing that, no version.  Within one element the first match wins; an
element with no context keyword never contributes. -/
theorem C8_version_characterization (soup : Soup) :
    extract_version soup none = versionFromSpec soup.versionElements none := by
  unfold extract_version
  exact aux_extract_version_foldl soup.versionElements none

/-- Auxiliary: `find?` over a reversed list returns the element at the
greatest index satisfying the predicate. -/
theorem aux_reverse_find_greatest (p : String → Bool) :
    ∀ (l : List String) (j : Nat), j < l.length → p (l.getD j "") = true →
      (∀ k, j < k → k < l.length → p (l.getD k "") = false) →
      l.reverse.find? p = some (l.getD j "") := by
  intro l
  induction l using List.reverseRecOn with
  | nil => intro j hj _ _; simp at hj
  | append_singleton l a ih =>
    intro j hj hpj hmax
    have hga : (l ++ [a]).getD l.length "" = a := by
      simp [List.getD_eq_getElem?_getD, List.getElem?_append_right (le_refl l.length)]
    rw [List.reverse_append, List.reverse_singleton, List.singleton_append]
    by_cases hja : j = l.length
    · subst hja
      rw [hga] at hpj
      rw [List.find?_cons_of_pos _ hpj, hga]
    · have hjl : j < l.length := by
        have := hj
        simp only [List.length_append, List.length_singleton] at this
        omega
      have hgj : (l ++ [a]).getD j "" = l.getD j "" := by
        simp [List.getD_eq_getElem?_getD, List.getElem?_append_left hjl]
      have hpa : p a = false := by
        have hk := hmax l.length (by omega)
          (by simp [List.length_append])
        rwa [hga] at hk
      rw [List.find?_cons_of_neg _ (by simp [hpa]), hgj]
      apply ih j hjl (by rwa [hgj] at hpj)
      intro k hk1 hk2
      have hk := hmax k hk1 (by simp only [List.length_append, List.length_singleton]; omega)
      have hgk : (l ++ [a]).getD k "" = l.getD k "" := by
        simp [List.getD_eq_getElem?_getD, List.getElem?_append_left hk2]
      rwa [hgk] at hk

/-- C3: for every member path, when the segment immediately preceding the
(first) member-type segment is not a catalog identifier, it is the owning
object; when it is a catalog identifier, the owning object is the segment at
the greatest index below it that is neither a catalog identifier nor
`objects` (the nearest such ancestor), whenever one exists; and in
particular an `objects/<name>/events/<file>` path not under `Global context`
classifies as an object event with the owner resolved by this rule (shown
both for a plain owner segment and for a catalog identifier segment). -/
theorem C3_owner_resolution :
    (∀ (parts : List String) (memberType : String) (i : Nat),
      findMemberIdx parts memberType = some i → 0 < i →
      (strStartsWith (parts.getD (i - 1) "") "catalog" = false →
        extract_object_name_parts parts memberType = some (parts.getD (i - 1) "")) ∧
      (strStartsWith (parts.getD (i - 1) "") "catalog" = true →
        ∀ j, j < i →
          (!(strStartsWith (parts.getD j "") "catalog")
            && (parts.getD j "" != "objects")) = true →
          (∀ k, j < k → k < i →
            (!(strStartsWith (parts.getD k "") "catalog")
              && (parts.getD k "" != "objects")) = false) →
          extract_object_name_parts parts memberType = some (parts.getD j ""))) ∧
    parse_file_path "objects/SomeCatalog/events/Bar.html" =
      (DocumentType.OBJECT_EVENT, some "SomeCatalog", "Bar") ∧
    parse_file_path "Catalogs/objects/catalog123/events/Bar.html" =
      (DocumentType.OBJECT_EVENT, some "Catalogs", "Bar") := by
  refine ⟨?_, by decide, by decide⟩
  intro parts memberType i hfind hpos
  have hilen : i < parts.length := by
    have h := hfind
    unfold findMemberIdx at h
    rw [List.findIdx?_eq_some_iff_getElem] at h
    exact h.1
  have hne : ¬(i = 0) := by omega
  constructor
  · intro hcat
    simp only [extract_object_name_parts, hfind, hne, if_false]
    by_cases hgc : (parts.getD (i - 1) "" == "Global context") = true
    · rw [if_pos hgc]
      rw [beq_iff_eq] at hgc
      rw [hgc]
    · rw [if_neg hgc, if_neg (by rw [hcat]; exact Bool.false_ne_true)]
  · intro hcat j hj hpj hmax
    have hgc : (parts.getD (i - 1) "" == "Global context") = false := by
      by_contra hco
      have hco' : (parts.getD (i - 1) "" == "Global context") = true := by
        revert hco
        cases (parts.getD (i - 1) "" == "Global context") <;> simp
      rw [beq_iff_eq] at hco'
      rw [hco'] at hcat
      exact absurd hcat (by decide)
    simp only [extract_object_name_parts, hfind, hne, if_false]
    rw [if_neg (by rw [hgc]; exact Bool.false_ne_true), if_pos hcat]
    have htlen : (parts.take i).length = i := by
      rw [List.length_take]
      omega
    have hgd : ∀ m, m < i → (parts.take i).getD m "" = parts.getD m "" := by
      intro m hm
      simp [List.getD_eq_getElem?_getD, List.getElem?_take_of_lt hm]
    have hwalk : catalogWalk parts i = some (parts.getD j "") := by
      unfold catalogWalk
      rw [← hgd j hj]
      apply aux_reverse_find_greatest _ (parts.take i) j (by omega)
      · rw [hgd j hj]
        exact hpj
      · intro k hk1 hk2
        rw [htlen] at hk2
        rw [hgd k hk2]
        exact hmax k hk1 hk2
    rw [hwalk]

/-- C3 (witness): the owner rule applied to the plain-segment event path. -/
theorem C3_witness :
    extract_object_name_parts ["objects", "SomeCatalog", "events", "Bar.html"]
      "events" = some "SomeCatalog" :=
  (C3_owner_resolution.1 ["objects", "SomeCatalog", "events", "Bar.html"]
    "events" 2 (by decide) (by decide)).1 (by decide)

/-- Auxiliary: the processed-file counter never decreases through one bucket
slice of the quota-seeking loop. -/
theorem aux_processSlice_le (docOf : HBKEntry → Option Documentation)
    (cond : Bool) (files : List HBKEntry) :
    ∀ (n idx : Nat) (acc : List Documentation × Nat) (m : Nat),
      m ≤ acc.2 → m ≤ (processSlice docOf cond files idx n acc).2 := by
  intro n
  induction n with
  | zero => intro idx acc m hm; simpa [processSlice] using hm
  | succ k ih =>
    intro idx acc m hm
    rw [processSlice]
    apply ih
    dsimp only
    split
    · split <;> (dsimp only; omega)
    · exact hm

/-- Auxiliary: the processed-file counter never decreases through one full
pass of the quota-seeking loop. -/
theorem aux_onePass_mono (docOf : HBKEntry → Option Documentation)
    (s : AnalyzeState) : s.processed_html ≤ (onePass docOf s).processed_html := by
  unfold onePass
  exact aux_processSlice_le _ _ _ _ _ _ _ (aux_processSlice_le _ _ _ _ _ _ _
    (aux_processSlice_le _ _ _ _ _ _ _ (aux_processSlice_le _ _ _ _ _ _ _
      (aux_processSlice_le _ _ _ _ _ _ _ (aux_processSlice_le _ _ _ _ _ _ _
        le_rfl)))))

/-- C7: the quota-seeking orchestration loop (a total function in this
embedding, its termination being part of its definition) stops immediately
once every target kind has reached the per-kind minimum or once the hard cap
on processed files is hit, and on any input its final state was reached
either through one of those two conditions or through a pass that processed
no new file. -/
theorem C7_loop_stops :
    (∀ (docOf : HBKEntry → Option Documentation) (s : AnalyzeState),
       all_types_found s.documentation = true ∨ maxFilesTotal ≤ s.processed_html →
       analyzeLoop docOf s = s) ∧
    (∀ (docOf : HBKEntry → Option Documentation) (s : AnalyzeState),
       all_types_found (analyzeLoop docOf s).documentation = true ∨
       maxFilesTotal ≤ (analyzeLoop docOf s).processed_html ∨
       ∃ sPrev, analyzeLoop docOf s = onePass docOf sPrev ∧
         (onePass docOf sPrev).processed_html = sPrev.processed_html) := by
  have hstop : ∀ (docOf : HBKEntry → Option Documentation) (s : AnalyzeState),
      all_types_found s.documentation = true ∨ maxFilesTotal ≤ s.processed_html →
      analyzeLoop docOf s = s := by
    intro docOf s h
    rw [analyzeLoop]
    exact dif_pos h
  refine ⟨hstop, ?_⟩
  intro docOf s
  suffices H : ∀ (n : Nat) (s : AnalyzeState), maxFilesTotal - s.processed_html ≤ n →
      (all_types_found (analyzeLoop docOf s).documentation = true ∨
       maxFilesTotal ≤ (analyzeLoop docOf s).processed_html ∨
       ∃ sPrev, analyzeLoop docOf s = onePass docOf sPrev ∧
         (onePass docOf sPrev).processed_html = sPrev.processed_html) by
    exact H _ s le_rfl
  intro n
  induction n with
  | zero =>
    intro s hn
    have hcap : maxFilesTotal ≤ s.processed_html := by omega
    rw [hstop docOf s (Or.inr hcap)]
    exact Or.inr (Or.inl hcap)
  | succ k ih =>
    intro s hn
    by_cases hg : all_types_found s.documentation = true ∨
        maxFilesTotal ≤ s.processed_html
    · rw [hstop docOf s hg]
      rcases hg with hg | hg
      · exact Or.inl hg
      · exact Or.inr (Or.inl hg)
    · rw [analyzeLoop, dif_neg hg]
      by_cases h2 : (onePass docOf s).processed_html = s.processed_html
      · rw [dif_pos h2]
        exact Or.inr (Or.inr ⟨s, rfl, h2⟩)
      · rw [dif_neg h2]
        apply ih
        have hmono := aux_onePass_mono docOf s
        have hcap : ¬(maxFilesTotal ≤ s.processed_html) := fun hh => hg (Or.inr hh)
        omega

/-- C7 (witness): the loop stops immediately at the hard cap. -/
theorem C7_witness :
    analyzeLoop (fun _ => none) { processed_html := maxFilesTotal } =
      { processed_html := maxFilesTotal } :=
  C7_loop_stops.1 (fun _ => none) { processed_html := maxFilesTotal }
    (Or.inr (le_refl _))

/-- Auxiliary inversion: a successful validation means the path exists, is a
regular file, resolves, and has an allow-listed extension. -/
theorem aux_validate_ok (fs : FileSystem) (b : Bool)
    (hv : validate_file_path fs supportedExtensions = Except.ok b) :
    fs.fileExists = true ∧ fs.isFile = true ∧ fs.resolvable = true ∧
      supportedExtensions.contains (pyLower fs.suffix) = true := by
  cases h1 : fs.fileExists <;> cases h2 : fs.isFile <;>
    cases h3 : fs.resolvable <;>
    cases h4 : supportedExtensions.contains (pyLower fs.suffix) <;>
    simp_all [validate_file_path, supportedExtensions]

/-- C5 (counterexample): at a non-existent input path, `parse_file` returns
`None` (after logging) rather than surfacing any typed error to its caller:
its result is `Except.ok none`, never `Except.error`. -/
theorem C5_counterexample :
    parse_file (fun _ => none) { run := fun _ => Except.error { msg := "no os" } }
      104857600
      { path := "missing.hbk", fileExists := false, isFile := false,
        resolvable := false, suffix := ".hbk", size := 0, modified := 0 } =
      Except.ok none ∧
    ∀ e, parse_file (fun _ => none)
      { run := fun _ => Except.error { msg := "no os" } } 104857600
      { path := "missing.hbk", fileExists := false, isFile := false,
        resolvable := false, suffix := ".hbk", size := 0, modified := 0 } ≠
      Except.error e := by
  constructor
  · rfl
  · intro e h
    cases h

/-- C5 (amended): every configuration/validation failure at the parse entry
point is detected before any extraction work — the result is the same
`Except.ok none` for every archive environment and every extraction outcome,
so nothing of the archive is consulted — and the archive-tool-missing case is
reported through a non-empty `errors` list of the returned result; no typed
error reaches the caller in either case. -/
theorem C5_validation_reporting :
    (∀ (docOf : HBKEntry → Option Documentation) (env : ArchiveEnv)
       (maxFileSize : Nat) (fs : FileSystem),
       (fs.fileExists = false ∨ fs.isFile = false ∨ fs.resolvable = false ∨
        supportedExtensions.contains (pyLower fs.suffix) = false ∨
        maxFileSize < fs.size) →
       parse_file docOf env maxFileSize fs = Except.ok none) ∧
    (∀ (docOf : HBKEntry → Option Documentation) (env : ArchiveEnv)
       (maxFileSize : Nat) (fs : FileSystem),
       (∀ cmd ∈ zipCommands, probeAccepts env cmd = false) →
       validate_file_path fs supportedExtensions = Except.ok true →
       fs.size ≤ maxFileSize →
       ∃ r, parse_file docOf env maxFileSize fs = Except.ok (some r) ∧
         r.errors ≠ []) := by
  constructor
  · intro docOf env maxFileSize fs h
    unfold parse_file
    cases hv : validate_file_path fs supportedExtensions with
    | error e => rfl
    | ok b =>
      obtain ⟨g1, g2, g3, g4⟩ := aux_validate_ok fs b hv
      have hsz : maxFileSize < fs.size := by
        rcases h with h | h | h | h | h
        · exact absurd (g1.symm.trans h) (by decide)
        · exact absurd (g2.symm.trans h) (by decide)
        · exact absurd (g3.symm.trans h) (by decide)
        · exact absurd (g4.symm.trans h) (by decide)
        · exact h
      rw [if_pos hsz]
  · intro docOf env maxFileSize fs hprobe hv hsz
    have hfind : zipCommands.find? (probeAccepts env) = none := by
      rw [List.find?_eq_none]
      intro x hx
      simp [hprobe x hx]
    have hextract : extract_archive env fs.path = [] := by
      unfold extract_archive extract_external_7z
      rw [hfind]
    refine ⟨{ file_info := { path := fs.path, size := fs.size, modified := fs.modified },
              errors := ["Не удалось извлечь файлы из архива"] }, ?_, by simp⟩
    unfold parse_file
    rw [hv]
    rw [if_neg (by omega)]
    simp only [hextract, List.isEmpty_nil, if_true]
    rfl

/-- C5 (witness): the amended theorem applied at a non-existent path (first
part) — the validation failure is reported as `Except.ok none` for an
arbitrary archive environment. -/
theorem C5_witness :
    parse_file (fun _ => none) { run := fun _ => Except.error { msg := "x" } }
      1024
      { path := "b.hbk", fileExists := false, isFile := true,
        resolvable := true, suffix := ".hbk", size := 10, modified := 0 } =
      Except.ok none :=
  C5_validation_reporting.1 (fun _ => none)
    { run := fun _ => Except.error { msg := "x" } } 1024
    { path := "b.hbk", fileExists := false, isFile := true,
      resolvable := true, suffix := ".hbk", size := 10, modified := 0 }
    (Or.inl rfl)

end Help1C
